import Mathlib

/-!
Verification development for the Exhibit Linker citation engine
(`Exhibit_Linker.py`).  The Python source is shallowly embedded: region
text is a list of characters, the `re` patterns actually occurring in the
source are embedded as values of a small regex AST together with a
fuel-indexed backtracking matcher reproducing Python `re` semantics
(leftmost search, greedy/lazy quantifier priority, `IGNORECASE`), and the
stateful configuration calls become explicit state-passing functions.
-/

namespace ExhibitLinker

/-- Region text snapshots, filenames and identifiers are lists of characters
(the embedding of Python `str`). -/
abbrev Text := List Char

/-- Coerce a Lean string literal to the `Text` embedding. -/
def chars (s : String) : Text := s.data

/-- ASCII lower-casing of one character: the effect of `re.IGNORECASE` and of
`str.lower()` on the ASCII inputs handled by the program. -/
def lc (c : Char) : Char :=
  if 'A' ≤ c ∧ c ≤ 'Z' then Char.ofNat (c.toNat + 32) else c

/-- ASCII upper-casing, the embedding of `str.upper()`. -/
def uc (c : Char) : Char :=
  if 'a' ≤ c ∧ c ≤ 'z' then Char.ofNat (c.toNat - 32) else c

/-- Lower-case a whole string (`str.lower()`). -/
def lcs (t : Text) : Text := t.map lc

/-- Upper-case a whole string (`str.upper()`). -/
def ucs (t : Text) : Text := t.map uc

/-- `\d` (ASCII decimal digit). -/
def isDigitC (c : Char) : Bool := '0' ≤ c && c ≤ '9'

/-- `[A-Z]` without `IGNORECASE`. -/
def isUpperC (c : Char) : Bool := 'A' ≤ c && c ≤ 'Z'

/-- `[A-Za-z]`; also what `[A-Z]` matches under `re.IGNORECASE`. -/
def isAlphaC (c : Char) : Bool := ('A' ≤ c && c ≤ 'Z') || ('a' ≤ c && c ≤ 'z')

/-- `[A-Za-z0-9]`. -/
def isAlnumC (c : Char) : Bool := isAlphaC c || isDigitC c

/-- `\s` (Python whitespace). -/
def isSpaceC (c : Char) : Bool :=
  c = ' ' || c = '\t' || c = '\n' || c = '\r' || c = '\x0b' || c = '\x0c'

/-- `\w` (word character, ASCII). -/
def isWordC (c : Char) : Bool := isAlnumC c || c = '_'

/-- Python slicing `t[s:e]` (clamping, half-open). -/
def sliceT (t : Text) (s e : Nat) : Text := (t.take e).drop s

/-- Replacing the span `[s, e)` of `t` by `r`: the text-level effect of
committing one annotation at that span. -/
def splice (t : Text) (s e : Nat) (r : Text) : Text :=
  t.take s ++ r ++ t.drop e

/-- Python `str.strip()`. -/
def pyStrip (t : Text) : Text :=
  ((t.dropWhile isSpaceC).reverse.dropWhile isSpaceC).reverse

/-- Python `str.replace(pat, '')` for a non-empty `pat`: remove all
non-overlapping occurrences, scanning left to right (fuel-indexed). -/
def replAllAux : Nat → Text → Text → Text
  | 0, _, _ => []
  | f+1, s, pat =>
    if pat ≠ [] ∧ pat.isPrefixOf s then replAllAux f (s.drop pat.length) pat
    else match s with
      | [] => []
      | c :: cs => c :: replAllAux f cs pat

/-- Python `s.replace(pat, '')`. -/
def replAll (s pat : Text) : Text := replAllAux (s.length + 1) s pat

/-- Decimal digits of a natural number (`str(n)` for `n : int`, `n ≥ 0`). -/
def natDigits (n : Nat) : Text :=
  (Nat.toDigits 10 n)

/-- Parse a digit string as a natural number (`int(s)` on digit strings,
leading zeros allowed). -/
def parseNat (t : Text) : Nat :=
  t.foldl (fun a c => a * 10 + (c.toNat - 48)) 0

/-! ## The regex fragment used by the source

Only the constructs appearing in the source's patterns are embedded:
case-insensitive literals, character classes, concatenation, alternation,
greedy and lazy repetition, capture groups, negative lookahead `(?! ...)`,
the word boundary `\b` and the end anchor `$`.  All searches in the source
pass `re.IGNORECASE`, so literals compare lower-cased. -/

inductive Re where
  | eps : Re
  | ch (p : Char → Bool) : Re
  | lit (s : Text) : Re
  | seq (a b : Re) : Re
  | alt (a b : Re) : Re
  | star (lzy : Bool) (a : Re) : Re
  | grp (n : Nat) (a : Re) : Re
  | nla (a : Re) : Re
  | wb : Re
  | eos : Re

/-- Captured group records: `(group index, start, end)`. -/
abbrev Groups := List (Nat × Nat × Nat)

/-- Case-insensitive literal match at position `i`; returns the end
position. -/
def litMatch : Text → Text → Nat → Option Nat
  | [], _, i => some i
  | c :: cs, t, i =>
    match t[i]? with
    | some d => if lc d = lc c then litMatch cs t (i+1) else none
    | none => none

/-- Word boundary test at position `i` of `t` (`\b`). -/
def wbAt (t : Text) (i : Nat) : Bool :=
  let prevW := if i = 0 then false else
    match t[i-1]? with
    | some c => isWordC c
    | none => false
  let nextW :=
    match t[i]? with
    | some c => isWordC c
    | none => false
  prevW != nextW

/-- Backtracking matcher.  `mtch fuel re t i g` returns the end positions
(with captured groups) of all matches of `re` in `t` starting at `i`, in
Python's backtracking priority order (earlier alternatives first, greedy
repetitions longest first, lazy repetitions shortest first); a repetition
never iterates on an empty body match.  `fuel` bounds the recursion depth;
results are genuine matches for any fuel, and with enough fuel all are
found. -/
def mtch : Nat → Re → Text → Nat → Groups → List (Nat × Groups)
  | 0, _, _, _, _ => []
  | f+1, re, t, i, g =>
    match re with
    | .eps => [(i, g)]
    | .ch p =>
      match t[i]? with
      | some c => if p c then [(i+1, g)] else []
      | none => []
    | .lit s =>
      match litMatch s t i with
      | some j => [(j, g)]
      | none => []
    | .seq a b => (mtch f a t i g).flatMap (fun r => mtch f b t r.1 r.2)
    | .alt a b => mtch f a t i g ++ mtch f b t i g
    | .star lzy a =>
      let more := (mtch f a t i g).flatMap
        (fun r => if r.1 = i then [] else mtch f (.star lzy a) t r.1 r.2)
      if lzy then (i, g) :: more else more ++ [(i, g)]
    | .grp n a => (mtch f a t i g).map (fun r => (r.1, (n, i, r.1) :: r.2))
    | .nla a => if (mtch f a t i g).isEmpty then [(i, g)] else []
    | .wb => if wbAt t i then [(i, g)] else []
    | .eos => if i = t.length then [(i, g)] else []

/-- Fuel sufficient for the short patterns of the source on text `t`. -/
def bigFuel (t : Text) : Nat := (t.length + 2) * 64

/-- One regex match: span `[s, e)` plus captured groups. -/
structure Mtch where
  s : Nat
  e : Nat
  gs : Groups
deriving DecidableEq

/-- `match.group(n)`: the captured text of group `n`. -/
def groupStr (t : Text) (m : Mtch) (n : Nat) : Text :=
  match m.gs.find? (fun x => x.1 = n) with
  | some x => sliceT t x.2.1 x.2.2
  | none => []

/-- First (leftmost) match at or after position `i`, trying each start
position in turn and taking the highest-priority match there — the
semantics of `re.search`. -/
def searchHeadFrom (p : Re) (t : Text) : Nat → Nat → Option Mtch
  | _, 0 => none
  | i, f+1 =>
    match mtch (bigFuel t) p t i [] with
    | r :: _ => some ⟨i, r.1, r.2⟩
    | [] => if i < t.length then searchHeadFrom p t (i+1) f else none

/-- `re.search(p, t)`. -/
def reSearch (p : Re) (t : Text) : Option Mtch :=
  searchHeadFrom p t 0 (t.length + 1)

/-- `re.finditer(p, t)` from position `i`: repeated non-overlapping leftmost
search, advancing past each match (by one character after an empty
match). -/
def finditerFrom (p : Re) (t : Text) : Nat → Nat → List Mtch
  | _, 0 => []
  | i, f+1 =>
    match searchHeadFrom p t i (t.length + 1 - i) with
    | none => []
    | some m => m :: finditerFrom p t (if m.e = m.s then m.e + 1 else m.e) f

/-- `re.finditer(p, t)`. -/
def finditer (p : Re) (t : Text) : List Mtch :=
  finditerFrom p t 0 (t.length + 1)

/-- `re.match(p, t)`: anchored at position 0. -/
def reMatchAt0 (p : Re) (t : Text) : Option Mtch :=
  match mtch (bigFuel t) p t 0 [] with
  | r :: _ => some ⟨0, r.1, r.2⟩
  | [] => none

/-- `\s*`. -/
def spacesStar : Re := .star false (.ch isSpaceC)

/-- `\s+`. -/
def spacesPlus : Re := .seq (.ch isSpaceC) spacesStar

/-- `\d+`. -/
def digitsPlus : Re := .seq (.ch isDigitC) (.star false (.ch isDigitC))

/-- `[A-Za-z]+`. -/
def alphasPlus : Re := .seq (.ch isAlphaC) (.star false (.ch isAlphaC))

/-! ## Word-mode exhibit patterns (`WordAutoLinkerCOM.exhibit_patterns`)

All ten are compiled with `re.IGNORECASE`, so `[A-Z]` matches any letter
and literals compare case-insensitively. -/

/-- `(\d+[A-Z]?)` under `IGNORECASE`, as capture group 1. -/
def numIdGrp : Re := .grp 1 (.seq digitsPlus (.alt (.ch isAlphaC) .eps))

/-- `([A-Z])` under `IGNORECASE`, as capture group 1. -/
def alphaIdGrp : Re := .grp 1 (.ch isAlphaC)

/-- `Ex\.\s*(\d+[A-Z]?)`. -/
def exPat1 : Re := .seq (.lit (chars "Ex.")) (.seq spacesStar numIdGrp)

/-- `Ex\.\s*([A-Z])`. -/
def exPat2 : Re := .seq (.lit (chars "Ex.")) (.seq spacesStar alphaIdGrp)

/-- `Exhibit\s*(\d+[A-Z]?)`. -/
def exPat3 : Re := .seq (.lit (chars "Exhibit")) (.seq spacesStar numIdGrp)

/-- `Exhibit\s*([A-Z])`. -/
def exPat4 : Re := .seq (.lit (chars "Exhibit")) (.seq spacesStar alphaIdGrp)

/-- `Ex\.(\d+[A-Z]?)`. -/
def exPat5 : Re := .seq (.lit (chars "Ex.")) numIdGrp

/-- `Ex\.([A-Z])`. -/
def exPat6 : Re := .seq (.lit (chars "Ex.")) alphaIdGrp

/-- `Ex\s+(\d+[A-Z]?)`. -/
def exPat7 : Re := .seq (.lit (chars "Ex")) (.seq spacesPlus numIdGrp)

/-- `Ex\s+([A-Z])`. -/
def exPat8 : Re := .seq (.lit (chars "Ex")) (.seq spacesPlus alphaIdGrp)

/-- `Ex_(\d+[A-Z]?)`. -/
def exPat9 : Re := .seq (.lit (chars "Ex_")) numIdGrp

/-- `Ex_([A-Z])`. -/
def exPat10 : Re := .seq (.lit (chars "Ex_")) alphaIdGrp

/-- `self.exhibit_patterns`, in source order. -/
def exhibitPatterns : List Re :=
  [exPat1, exPat2, exPat3, exPat4, exPat5, exPat6, exPat7, exPat8, exPat9, exPat10]

/-! ## Target resolution (`find_matching_exhibit_files`, Word class) -/

/-- The separators accepted after a candidate filename prefix. -/
def seps : List Char := ['_', '-', '.', ' ']

/-- One filename against one candidate prefix: `filename.startswith(prefix)`
and then either the prefix covers the whole filename or the next character
is a separator. -/
def fileMatches (pfx fn : Text) : Bool :=
  pfx.isPrefixOf fn &&
    (decide (fn.length ≤ pfx.length) ||
      (match fn[pfx.length]? with
       | some c => seps.contains c
       | none => false))

/-- The fixed ordered candidate prefix list built from an identifier
(`possible_prefixes`). -/
def possiblePfxs (id : Text) : List Text :=
  [ chars "Ex. " ++ id, chars "Ex." ++ id, chars "Ex " ++ id,
    chars "Ex_" ++ id, chars "Exhibit " ++ id, chars "Exhibit_" ++ id ]

/-- `os.path.join(target_folder, filename)` (Windows separator). -/
def ospJoin (dir fn : Text) : Text := dir ++ '\\' :: fn

/-- All files of the listing matching one candidate prefix, in directory
listing order, as joined paths. -/
def matchesForPfx (folder : List Text) (dir pfx : Text) : List Text :=
  (folder.filter (fun fn => fileMatches pfx fn)).map (ospJoin dir)

/-- The inner candidate-prefix loop: accumulate matches per prefix and stop
at the first prefix that yielded any. -/
def tryPfxs (folder : List Text) (dir : Text) : List Text → List Text
  | [] => []
  | p :: ps =>
    let m := matchesForPfx folder dir p
    if m.isEmpty then tryPfxs folder dir ps else m

/-- The outer pattern loop of `find_matching_exhibit_files`: first exhibit
pattern matching the reference text supplies the identifier; if its
candidate prefixes yield no files the next pattern is tried. -/
def findExhibitFilesAux (folder : List Text) (dir refText : Text) : List Re → List Text
  | [] => []
  | p :: ps =>
    match reSearch p refText with
    | none => findExhibitFilesAux folder dir refText ps
    | some m =>
      let files := tryPfxs folder dir (possiblePfxs (groupStr refText m 1))
      if files.isEmpty then findExhibitFilesAux folder dir refText ps else files

/-- `find_matching_exhibit_files(reference_text)` over a directory listing. -/
def findMatchingExhibitFiles (folder : List Text) (dir refText : Text) : List Text :=
  findExhibitFilesAux folder dir refText exhibitPatterns

/-! ## Bates mode (`build_bates_pdf_map`, `find_bates_pdf_and_page`) -/

/-- One value of `self.bates_pdf_map`. -/
structure BatesInfo where
  filename : Text
  path : Text
  startPage : Nat
deriving DecidableEq

/-- `^{escaped_prefix}(\d+)\.pdf$` as a regex (`re.match` ... `$`). -/
def batesFileRe (pfx : Text) : Re :=
  .seq (.lit pfx) (.seq (.grp 1 digitsPlus) (.seq (.lit (chars ".pdf")) .eos))

/-- `{escaped_prefix}(\d+)`: the single Bates citation pattern
(`get_bates_patterns`). -/
def batesRe (pfx : Text) : Re := .seq (.lit pfx) (.grp 1 digitsPlus)

/-- Python dict assignment `d[k] = v` on an association list: replace the
value at an existing key in place, else append. -/
def dictUpsert (k : Nat) (v : BatesInfo) : List (Nat × BatesInfo) → List (Nat × BatesInfo)
  | [] => [(k, v)]
  | (k', v') :: rest =>
    if k' = k then (k, v) :: rest else (k', v') :: dictUpsert k v rest

/-- Stable insertion (ascending by Bates number) for the
`bates_files.sort(key=lambda x: x[0])` step. -/
def insertAscB (x : Nat × Text × Text) : List (Nat × Text × Text) → List (Nat × Text × Text)
  | [] => [x]
  | y :: ys => if y.1 ≤ x.1 then y :: insertAscB x ys else x :: y :: ys

/-- Stable sort by Bates number. -/
def sortAscB : List (Nat × Text × Text) → List (Nat × Text × Text)
  | [] => []
  | x :: xs => insertAscB x (sortAscB xs)

/-- `build_bates_pdf_map`: scan the folder listing for files matching the
anchored Bates filename pattern, sort by Bates number, and build the map. -/
def buildBatesMap (folder : List Text) (dir pfx : Text) : List (Nat × BatesInfo) :=
  let entries := folder.filterMap (fun fn =>
    match reMatchAt0 (batesFileRe pfx) fn with
    | some m => some (parseNat (groupStr fn m 1), fn, ospJoin dir fn)
    | none => none)
  (sortAscB entries).foldl
    (fun d x => dictUpsert x.1 ⟨x.2.1, x.2.2, x.1⟩ d) []

/-- Dictionary access `self.bates_pdf_map[k]`. -/
def lookupD (m : List (Nat × BatesInfo)) (k : Nat) : Option BatesInfo :=
  match m.find? (fun x => x.1 = k) with
  | some x => some x.2
  | none => none

/-- Descending insertion for `sorted(keys, reverse=True)`. -/
def insertDescNat (x : Nat) : List Nat → List Nat
  | [] => [x]
  | y :: ys => if x ≤ y then y :: insertDescNat x ys else x :: y :: ys

/-- `sorted(self.bates_pdf_map.keys(), reverse=True)`. -/
def sortDescNat : List Nat → List Nat
  | [] => []
  | x :: xs => insertDescNat x (sortDescNat xs)

/-- The descending scan of `find_bates_pdf_and_page`: first start page that
is `≤` the requested Bates number. -/
def firstLe (n : Nat) : List Nat → Option Nat
  | [] => none
  | s :: ss => if s ≤ n then some s else firstLe n ss

/-- `find_bates_pdf_and_page(bates_number)`: the containing PDF's path and
the 1-based page `bates_number - start_page + 1` within it. -/
def findBatesPdfAndPage (m : List (Nat × BatesInfo)) (n : Nat) : Option (Text × Nat) :=
  if m.isEmpty then none
  else
    match firstLe n (sortDescNat (m.map (fun x => x.1))) with
    | some s =>
      match lookupD m s with
      | some info => some (info.path, n - s + 1)
      | none => none
    | none => none

/-- `find_matching_bates_files(reference_text)`: search the single Bates
pattern in the reference, resolve through the map; at most one entry. -/
def findMatchingBatesFiles (m : List (Nat × BatesInfo)) (pfx refText : Text) :
    List (Text × Nat × Nat) :=
  if pfx = [] then []
  else
    match reSearch (batesRe pfx) refText with
    | some mt =>
      let n := parseNat (groupStr refText mt 1)
      match findBatesPdfAndPage m n with
      | some (path, page) => [(path, page, n)]
      | none => []
    | none => []

/-! ## Extraction inside one region (`process_range_for_hyperlinks`) -/

/-- The `file_info` recorded for a reference: a joined path in exhibit mode,
or the Bates dict `{path, page, bates_number}`. -/
inductive FileInfo where
  | exhibit (path : Text) : FileInfo
  | bates (path : Text) (page : Nat) (batesNumber : Nat) : FileInfo
deriving DecidableEq

/-- One accepted reference: matched text, span in the region snapshot, and
the head of its resolution list. -/
structure Ref where
  txt : Text
  s : Nat
  e : Nat
  fileInfo : FileInfo
deriving DecidableEq

/-- Working state of the extraction loop: accepted references (in acceptance
order) and the accepted spans (`matched_positions`). -/
structure Acc where
  refs : List Ref
  spans : List (Nat × Nat)
deriving DecidableEq

/-- The dedup test: is this start position inside an already-accepted span
(`any(start <= start_pos < end for start, end in matched_positions)`)? -/
def posTaken (spans : List (Nat × Nat)) (sp : Nat) : Bool :=
  spans.any (fun x => x.1 ≤ sp && sp < x.2)

/-- One iteration of the match loop: skip a match whose start is inside an
accepted span, resolve the matched text, and record it (with the first
resolution, `matching_files[0]`) only when resolution succeeded. -/
def acceptStep (resolve : Text → List FileInfo) (t : Text) (acc : Acc)
    (m : Mtch) : Acc :=
  if posTaken acc.spans m.s then acc
  else
    match resolve (sliceT t m.s m.e) with
    | [] => acc
    | fi :: _ =>
      ⟨acc.refs ++ [⟨sliceT t m.s m.e, m.s, m.e, fi⟩],
       acc.spans ++ [(m.s, m.e)]⟩

/-- Process the matches of one pattern in order. -/
def acceptMatches (resolve : Text → List FileInfo) (t : Text) (acc : Acc)
    (ms : List Mtch) : Acc :=
  ms.foldl (acceptStep resolve t) acc

/-- Pattern loop of the extraction phase. -/
def findRefsWith (pats : List Re) (resolve : Text → List FileInfo) (t : Text) :
    List Ref :=
  (pats.foldl (fun acc p => acceptMatches resolve t acc (finditer p t)) ⟨[], []⟩).refs

/-- Python's case-sensitive substring test `pat in t`. -/
def isSubstr (pat t : Text) : Bool :=
  (List.range (t.length + 1)).any (fun i => pat.isPrefixOf (t.drop i))

/-- The case-sensitive relevance gate of exhibit mode:
`range_text and ('Ex.' in range_text or 'Exhibit' in range_text)`. -/
def gateExhibit (t : Text) : Bool :=
  !t.isEmpty && (isSubstr (chars "Ex.") t || isSubstr (chars "Exhibit") t)

/-- The relevance gate of Bates mode:
`self.bates_prefix and self.bates_prefix in range_text`. -/
def gateBates (pfx t : Text) : Bool :=
  !pfx.isEmpty && isSubstr pfx t

/-- Exhibit-mode reference extraction for one region snapshot. -/
def findRefsExhibit (t : Text) (folder : List Text) (dir : Text) : List Ref :=
  if gateExhibit t then
    findRefsWith exhibitPatterns
      (fun ref => (findMatchingExhibitFiles folder dir ref).map .exhibit) t
  else []

/-- Bates-mode reference extraction for one region snapshot. -/
def findRefsBates (t : Text) (m : List (Nat × BatesInfo)) (pfx : Text) : List Ref :=
  if gateBates pfx t then
    findRefsWith [batesRe pfx]
      (fun ref => (findMatchingBatesFiles m pfx ref).map
        (fun x => .bates x.1 x.2.1 x.2.2)) t
  else []

/-- Stable descending insertion by start offset, for
`references.sort(key=lambda x: x['start_pos'], reverse=True)`. -/
def insertDescRef (x : Ref) : List Ref → List Ref
  | [] => [x]
  | y :: ys => if x.s ≤ y.s then y :: insertDescRef x ys else x :: y :: ys

/-- Sort references by start offset, largest first. -/
def sortRefsDesc : List Ref → List Ref
  | [] => []
  | x :: xs => insertDescRef x (sortRefsDesc xs)

/-! ## Annotation application (verify / re-localize / commit / abandon) -/

/-- First position (leftmost) of a case-insensitive exact occurrence of
`needle` in `hay`, from index `i`: the semantics of
`re.search(re.escape(needle), hay, re.IGNORECASE)`. -/
def searchCIFrom (needle hay : Text) : Nat → Nat → Option Nat
  | _, 0 => none
  | i, f+1 =>
    if lcs (sliceT hay i (i + needle.length)) = lcs needle then some i
    else if i < hay.length then searchCIFrom needle hay (i+1) f else none

/-- Leftmost case-insensitive occurrence of `needle` in `hay`. -/
def searchCI (needle hay : Text) : Option Nat :=
  searchCIFrom needle hay 0 (hay.length + 1)

/-- Apply one annotation to the live region text: verify the recorded span,
re-localize once in the `±5` window on mismatch, commit (modelled as
splicing the displayed text, `TextToDisplay=expected_text`, at the final
span), or abandon leaving the text untouched.  Returns the new text and
whether a link was added. -/
def applyOne (t : Text) (r : Ref) : Text × Bool :=
  let actual := sliceT t r.s r.e
  if actual = r.txt then (splice t r.s r.e r.txt, true)
  else
    let ws := r.s - 5
    let we := min t.length (r.e + 5)
    let window := sliceT t ws we
    match searchCI r.txt window with
    | some k => (splice t (ws + k) (ws + k + r.txt.length) r.txt, true)
    | none => (t, false)

/-- Commit the sorted references one at a time, counting successes
(`links_added`). -/
def applyRefs (t : Text) : List Ref → Text × Nat
  | [] => (t, 0)
  | r :: rs =>
    let (t', ok) := applyOne t r
    let (t'', n) := applyRefs t' rs
    (t'', (if ok then 1 else 0) + n)

/-- `process_range_for_hyperlinks` in exhibit mode: gate, extract, sort in
reverse span order, commit, and return the number of links added. -/
def processRangeExhibit (folder : List Text) (dir t : Text) : Nat :=
  (applyRefs t (sortRefsDesc (findRefsExhibit t folder dir))).2

/-! ## Document scan (`process_document`) -/

/-- A region read: `none` models a region whose text could not be read or
whose processing raised (the per-region `except` paths). -/
abbrev Region := Option Text

/-- Per-region link count: a failed region is caught and contributes 0. -/
def processRegion (folder : List Text) (dir : Text) : Region → Nat
  | none => 0
  | some t => processRangeExhibit folder dir t

/-- `process_document`: walk all main-text paragraphs in index order, then
all footnotes, then all endnotes, accumulating the per-region counts. -/
def processDocument (paras footnotes endnotes : List Region)
    (folder : List Text) (dir : Text) : Nat :=
  let c1 := paras.foldl (fun acc r => acc + processRegion folder dir r) 0
  let c2 := footnotes.foldl (fun acc r => acc + processRegion folder dir r) c1
  endnotes.foldl (fun acc r => acc + processRegion folder dir r) c2

/-! ## Excel-mode resolution (`ExcelAutoLinker.find_matching_exhibit_files`) -/

/-- Wrap a pattern in word boundaries: the Excel pattern list is the Word
list with `\b` added at both ends of every pattern. -/
def anchoredB (r : Re) : Re := .seq .wb (.seq r .wb)

/-- `ExcelAutoLinker.exhibit_patterns`. -/
def excelPatterns : List Re := exhibitPatterns.map anchoredB

/-- The header denylist `skip_words`. -/
def skipWords : List Text :=
  [ chars "exhibit", chars "exhibits", chars "ex", chars "number",
    chars "ref", chars "reference", chars "document", chars "file" ]

/-- Parse the decimal forms accepted by Python `float` on strings made of
digits, `-` and `.` only: optional leading sign, integer digits, optional
fraction, at least one digit overall.  Returns `(negative, int digits,
fraction digits)`; `none` embeds a raised `ValueError`. -/
def parseDec (t : Text) : Option (Bool × Text × Text) :=
  let p := match t with
    | '-' :: r => (true, r)
    | _ => (false, t)
  let ip := p.2.takeWhile isDigitC
  match p.2.drop ip.length with
  | [] => if ip ≠ [] then some (p.1, ip, []) else none
  | '.' :: fr =>
    if fr.all isDigitC ∧ (ip ≠ [] ∨ fr ≠ []) then some (p.1, ip, fr) else none
  | _ => none

/-- `str(int(x))` for an integral float `x` given as sign and integer
digits: canonical decimal form, leading zeros stripped, `-0` collapsed. -/
def intStr (neg : Bool) (ip : Text) : Text :=
  let v := parseNat ip
  if v = 0 then chars "0"
  else if neg then '-' :: natDigits v else natDigits v

/-- The Excel cell clean-up: strip, undo Excel's float rendering
(`'10.0' -> '10'`), and canonicalize integral numeric strings through
`str(int(float(s)))`. -/
def cleanRef (v : Text) : Text :=
  let c0 := pyStrip v
  let c1 :=
    if (chars ".0").isSuffixOf c0 then
      let pot := replAll c0 (chars ".0")
      if pot.filter (fun c => c != '-') ≠ [] ∧
          (pot.filter (fun c => c != '-')).all isDigitC then pot else c0
    else c0
  let core := c1.filter (fun c => c != '-' && c != '.')
  if core ≠ [] ∧ core.all isDigitC then
    match parseDec c1 with
    | some (neg, ip, fr) =>
      if fr.all (fun c => c = '0') then intStr neg ip else c1
    | none => c1
  else c1

/-- The bare-reference analysis of the Excel fallback: pure number, single
letter, or short alphanumeric combination. -/
def bareId (cleaned : Text) : Option Text :=
  if cleaned = [] then none
  else if cleaned.all isDigitC then some cleaned
  else if cleaned.all isAlphaC ∧ cleaned.length = 1 then some (ucs cleaned)
  else if cleaned.all isAlnumC ∧ 1 ≤ cleaned.length ∧ cleaned.length ≤ 5 then
    some (ucs cleaned)
  else none

/-- `ExcelAutoLinker.find_matching_exhibit_files(reference_text)` on a cell
value (embedded as its string form): clean, reject headers and over-long
values, try the boundary-anchored patterns on the original value, then fall
back to the bare identifier built from the cleaned value. -/
def excelFindMatchingExhibitFiles (folder : List Text) (dir v : Text) : List Text :=
  let cleaned := cleanRef v
  if skipWords.contains (lcs cleaned) then []
  else if 125 < cleaned.length then []
  else
    let std := findExhibitFilesAux folder dir v excelPatterns
    if !std.isEmpty then std
    else
      match bareId cleaned with
      | some id => tryPfxs folder dir (possiblePfxs id)
      | none => []

/-! ## Page-number automation (`set_page_automation`, `build_page_pattern`) -/

/-- `r?` (greedy option). -/
def optRe (r : Re) : Re := .alt r .eps

/-- `(?:Ex\.|Exhibit)`. -/
def exOrExhibitRe : Re := .alt (.lit (chars "Ex.")) (.lit (chars "Exhibit"))

/-- The page-reference search patterns tried, in order, against the
exemplary citation (`page_patterns`), with the exact page digits `pn`. -/
def pagePatterns (pn : Text) : List Re :=
  [ .seq .wb (.seq (.lit (chars "at")) (.seq spacesPlus (.seq (.lit (chars "p"))
      (.seq (optRe (.lit (chars "."))) (.seq spacesStar (.seq (.lit pn) .wb)))))),
    .seq .wb (.seq (.lit (chars "at")) (.seq spacesPlus (.seq (.lit (chars "pp"))
      (.seq (optRe (.lit (chars "."))) (.seq spacesStar (.seq (.lit pn) .wb)))))),
    .seq .wb (.seq (.lit (chars "at")) (.seq spacesPlus (.seq (.lit pn) .wb))),
    .seq .wb (.seq (.lit (chars "p")) (.seq (optRe (.lit (chars ".")))
      (.seq spacesStar (.seq (.lit pn) .wb)))),
    .seq .wb (.seq (.lit (chars "pp")) (.seq (optRe (.lit (chars ".")))
      (.seq spacesStar (.seq (.lit pn) .wb)))),
    .seq .wb (.seq (.lit (chars "page")) (.seq spacesPlus (.seq (.lit pn) .wb))),
    .seq .wb (.seq (.lit (chars "page")) (.seq (optRe (.lit (chars "s")))
      (.seq spacesPlus (.seq (.lit pn) .wb)))),
    .seq .wb (.seq (.lit pn) .wb) ]

/-- `(\d+[A-Za-z]*|[A-Za-z]+\d*|[A-Za-z]+)`: the flexible exhibit capture. -/
def exhibitCaptureRe : Re :=
  .grp 1 (.alt (.seq digitsPlus (.star false (.ch isAlphaC)))
    (.alt (.seq alphasPlus (.star false (.ch isDigitC))) alphasPlus))

/-- `(?:(?!(?:Ex\.|Exhibit)\s*\w)[^.]*?)`: guarded non-greedy middle
segment. -/
def middleRe : Re :=
  .seq (.nla (.seq exOrExhibitRe (.seq spacesStar (.ch isWordC))))
    (.star true (.ch (fun c => c != '.')))

/-- The page capture tail selected by the pattern type found in step 2. -/
def pageCaptureRe (ptype : Nat) : Re :=
  if ptype = 0 ∨ ptype = 1 then
    .seq (.lit (chars "at")) (.seq spacesPlus (.seq (.lit (chars "p"))
      (.seq (optRe (.lit (chars "p"))) (.seq (optRe (.lit (chars ".")))
        (.seq spacesStar (.grp 2 digitsPlus))))))
  else if ptype = 2 then
    .seq (.lit (chars "at")) (.seq spacesPlus (.grp 2 digitsPlus))
  else if ptype = 3 then
    .seq (.lit (chars "p")) (.seq (optRe (.lit (chars ".")))
      (.seq spacesStar (.grp 2 digitsPlus)))
  else if ptype = 4 then
    .seq (.lit (chars "pp")) (.seq (optRe (.lit (chars ".")))
      (.seq spacesStar (.grp 2 digitsPlus)))
  else if ptype = 5 then
    .seq (.lit (chars "page")) (.seq spacesPlus (.grp 2 digitsPlus))
  else if ptype = 6 then
    .seq (.lit (chars "page")) (.seq (optRe (.lit (chars "s")))
      (.seq spacesPlus (.grp 2 digitsPlus)))
  else .grp 2 digitsPlus

/-- The synthesized combined pattern
`(?:Ex\.|Exhibit)\s*<exhibit-capture><middle><page-capture>`. -/
def fullPattern (ptype : Nat) : Re :=
  .seq exOrExhibitRe (.seq spacesStar (.seq exhibitCaptureRe
    (.seq middleRe (pageCaptureRe ptype))))

/-- Step 1 of `build_page_pattern`: the exhibit identifier found by the
first exhibit pattern matching the exemplary citation. -/
def findExhibitId : List Re → Text → Option Text
  | [], _ => none
  | p :: ps, cit =>
    match reSearch p cit with
    | some m => some (groupStr cit m 1)
    | none => findExhibitId ps cit

/-- Step 2 of `build_page_pattern`: the index of the first page pattern with
at least one match in the citation. -/
def findPTypeAux (i : Nat) (cit : Text) : List Re → Option Nat
  | [] => none
  | p :: ps =>
    if (finditer p cit).isEmpty then findPTypeAux (i+1) cit ps else some i

/-- A synthesized citation pattern: the combined regex plus the two group
indices (`page_pattern_regex`, `exhibit_group_index`, `page_group_index`). -/
structure PagePattern where
  regex : Re
  exhibitGroupIndex : Nat
  pageGroupIndex : Nat

/-- Does the combined pattern self-validate on the citation: it matches, its
first group equals the exhibit identifier case-insensitively, and its
second group is exactly the page digits? -/
def selfValidates (full : Re) (cit exhibitId pn : Text) : Bool :=
  match reSearch full cit with
  | some m => ucs (groupStr cit m 1) = ucs exhibitId && groupStr cit m 2 = pn
  | none => false

/-- `build_page_pattern`: find the exhibit identifier, find the page
reference form, synthesize the combined pattern, and install it only when
it self-validates on the exemplary citation. -/
def buildPagePattern (cit : Text) (page : Nat) : Option PagePattern :=
  let pn := natDigits page
  match findExhibitId exhibitPatterns cit with
  | none => none
  | some exhibitId =>
    match findPTypeAux 0 cit (pagePatterns pn) with
    | none => none
    | some ptype =>
      let full := fullPattern ptype
      if selfValidates full cit exhibitId pn then some ⟨full, 1, 2⟩ else none

/-- The page-automation fields of the linker object. -/
structure PAState where
  enabled : Bool
  exemplaryCitation : Text
  exemplaryPage : Option Nat
  pagePattern : Option PagePattern

/-- `set_page_automation(enabled, exemplary_citation, exemplary_page_number)`:
record the stripped inputs; when enabled with both inputs truthy, rebuild the
pattern — but a failed build leaves the previous `page_pattern_regex`
untouched; otherwise clear the pattern. -/
def setPageAutomation (s : PAState) (enabled : Bool) (citation : Text)
    (page : Option Nat) : PAState :=
  let cit := pyStrip citation
  let base : PAState := ⟨enabled, cit, page, s.pagePattern⟩
  match enabled, cit, page with
  | true, c :: cs, some (p+1) =>
    (match buildPagePattern (c :: cs) (p+1) with
     | some pp => ⟨enabled, cit, page, some pp⟩
     | none => base)
  | _, _, _ => ⟨enabled, cit, page, none⟩

/-! ## Notions used in the statements -/

/-- Span list of a reference list. -/
def spansOf (l : List Ref) : List (Nat × Nat) := l.map (fun r => (r.s, r.e))

/-- Invariant carried by the extraction loop: the recorded positions are the
accepted spans, no accepted start lies inside an earlier accepted span, all
accepted spans are non-empty, and each accepted reference carries the head
of its resolution list. -/
def AccInv (resolve : Text → List FileInfo) (acc : Acc) : Prop :=
  acc.spans = spansOf acc.refs ∧
  acc.refs.Pairwise (fun a b => ¬(a.s ≤ b.s ∧ b.s < a.e)) ∧
  (∀ r ∈ acc.refs, r.s < r.e) ∧
  (∀ r ∈ acc.refs, ∃ rest, resolve r.txt = r.fileInfo :: rest)

/-- Two half-open spans overlap. -/
def overlapB (a b : Nat × Nat) : Bool := max a.1 b.1 < min a.2 b.2

/-- Pairwise disjointness of a span list. -/
def spansDisjoint : List (Nat × Nat) → Bool
  | [] => true
  | x :: xs => xs.all (fun y => !overlapB x y) && spansDisjoint xs

/-- The first non-empty list of a list of candidate result lists — the
contract of a loop that accumulates into an initially empty list and breaks
as soon as it is non-empty. -/
def firstNonempty : List (List α) → List α
  | [] => []
  | l :: ls => if l.isEmpty then firstNonempty ls else l

/-- The key list of the Bates map. -/
def keysOf (m : List (Nat × BatesInfo)) : List Nat := m.map (fun x => x.1)

/-! ## General facts about the matcher -/

/-- A successful literal match ends exactly `s.length` characters later. -/
theorem litMatch_eq_add (s : Text) : ∀ (t : Text) (i j : Nat),
    litMatch s t i = some j → j = i + s.length := by
  induction s with
  | nil =>
    intro t i j h
    simp [litMatch] at h
    simp [h]
  | cons c cs ih =>
    intro t i j h
    cases ht : t[i]? with
    | none => simp [litMatch, ht] at h
    | some d =>
      by_cases hd : lc d = lc c
      · simp [litMatch, ht, hd] at h
        have := ih t (i+1) j h
        simp [List.length_cons]
        omega
      · simp [litMatch, ht, hd] at h

/-- Matching never moves backwards: every result position is at least the
start position. -/
theorem mtch_mono : ∀ (f : Nat) (re : Re) (t : Text) (i : Nat) (g : Groups)
    (p : Nat × Groups), p ∈ mtch f re t i g → i ≤ p.1 := by
  intro f
  induction f with
  | zero => intro re t i g p hp; simp [mtch] at hp
  | succ f ih =>
    intro re t i g p hp
    cases re with
    | eps =>
      simp [mtch] at hp
      simp [hp]
    | ch q =>
      cases ht : t[i]? with
      | none => simp [mtch, ht] at hp
      | some c =>
        by_cases hq : q c
        · simp [mtch, ht, hq] at hp
          simp [hp]
        · simp [mtch, ht, hq] at hp
    | lit s =>
      cases hl : litMatch s t i with
      | none => simp [mtch, hl] at hp
      | some j =>
        simp [mtch, hl] at hp
        have := litMatch_eq_add s t i j hl
        simp [hp]
        omega
    | seq a b =>
      simp only [mtch, List.mem_flatMap] at hp
      obtain ⟨q, hq, hpq⟩ := hp
      exact le_trans (ih a t i g q hq) (ih b t q.1 q.2 p hpq)
    | alt a b =>
      simp only [mtch, List.mem_append] at hp
      cases hp with
      | inl h => exact ih a t i g p h
      | inr h => exact ih b t i g p h
    | star lzy a =>
      have hp' : p = (i, g) ∨ p ∈ (mtch f a t i g).flatMap
          (fun r => if r.1 = i then [] else mtch f (.star lzy a) t r.1 r.2) := by
        cases lzy with
        | true =>
          rw [show mtch (f+1) (.star true a) t i g =
              (i, g) :: (mtch f a t i g).flatMap
                (fun r => if r.1 = i then [] else mtch f (.star true a) t r.1 r.2)
            from rfl] at hp
          exact List.mem_cons.mp hp
        | false =>
          rw [show mtch (f+1) (.star false a) t i g =
              (mtch f a t i g).flatMap
                (fun r => if r.1 = i then [] else mtch f (.star false a) t r.1 r.2)
                ++ [(i, g)] from rfl] at hp
          rcases List.mem_append.mp hp with h | h
          · exact Or.inr h
          · exact Or.inl (List.mem_singleton.mp h)
      rcases hp' with rfl | h
      · simp
      · rw [List.mem_flatMap] at h
        obtain ⟨q, hq, hpq⟩ := h
        by_cases hqi : q.1 = i
        · rw [if_pos hqi] at hpq; simp at hpq
        · rw [if_neg hqi] at hpq
          exact le_trans (ih a t i g q hq) (ih (.star lzy a) t q.1 q.2 p hpq)
    | grp n a =>
      simp only [mtch, List.mem_map] at hp
      obtain ⟨q, hq, hpq⟩ := hp
      have := ih a t i g q hq
      simp [← hpq]
      omega
    | nla a =>
      by_cases h : (mtch f a t i g).isEmpty
      · simp [mtch, h] at hp
        simp [hp]
      · simp [mtch, h] at hp
    | wb =>
      by_cases h : wbAt t i
      · simp [mtch, h] at hp
        simp [hp]
      · simp [mtch, h] at hp
    | eos =>
      by_cases h : i = t.length
      · simp [mtch, h] at hp
        simp [hp]
        omega
      · simp [mtch, h] at hp

/-- A pattern starting with a non-empty literal only produces matches that
consume at least one character. -/
theorem mtch_seq_lit_lt (f : Nat) (s : Text) (r : Re) (t : Text) (i : Nat)
    (g : Groups) (p : Nat × Groups) (hs : s ≠ [])
    (hp : p ∈ mtch f (.seq (.lit s) r) t i g) : i < p.1 := by
  cases f with
  | zero => simp [mtch] at hp
  | succ f =>
    simp only [mtch, List.mem_flatMap] at hp
    obtain ⟨q, hq, hpq⟩ := hp
    cases f with
    | zero => simp [mtch] at hq
    | succ f' =>
      simp only [mtch] at hq
      cases hl : litMatch s t i with
      | none => rw [hl] at hq; simp at hq
      | some j =>
        rw [hl] at hq
        simp at hq
        have hj := litMatch_eq_add s t i j hl
        have hmono := mtch_mono (f'+1) r t q.1 q.2 p hpq
        have hlen : 0 < s.length := List.length_pos.mpr hs
        have : q.1 = j := by rw [hq]
        omega

/-- Every match reported by the leftmost search is the head of the matcher
results at its start position, at or after the scan start. -/
theorem searchHeadFrom_spec (p : Re) (t : Text) : ∀ (fu i : Nat) (m : Mtch),
    searchHeadFrom p t i fu = some m →
    i ≤ m.s ∧ ∃ rest, mtch (bigFuel t) p t m.s [] = (m.e, m.gs) :: rest := by
  intro fu
  induction fu with
  | zero => intro i m h; simp [searchHeadFrom] at h
  | succ fu ih =>
    intro i m h
    cases hm : mtch (bigFuel t) p t i [] with
    | cons r rs =>
      simp [searchHeadFrom, hm] at h
      refine ⟨?_, rs, ?_⟩
      · rw [← h]
      · rw [← h, hm]
    | nil =>
      simp [searchHeadFrom, hm] at h
      obtain ⟨hi, h2⟩ := h
      obtain ⟨h1, h3⟩ := ih (i+1) m h2
      exact ⟨by omega, h3⟩

/-- Every match yielded by the finditer scan is a genuine matcher result at
its own start position. -/
theorem finditerFrom_spec (p : Re) (t : Text) : ∀ (fu i : Nat) (m : Mtch),
    m ∈ finditerFrom p t i fu →
    ∃ rest, mtch (bigFuel t) p t m.s [] = (m.e, m.gs) :: rest := by
  intro fu
  induction fu with
  | zero => intro i m h; simp [finditerFrom] at h
  | succ fu ih =>
    intro i m h
    cases hs : searchHeadFrom p t i (t.length + 1 - i) with
    | none => simp [finditerFrom, hs] at h
    | some m' =>
      simp only [finditerFrom, hs] at h
      rcases List.mem_cons.mp h with rfl | h'
      · exact (searchHeadFrom_spec p t (t.length + 1 - i) i m hs).2
      · exact ih _ m h'

/-- Matches of a pattern beginning with a non-empty literal have non-empty
spans. -/
theorem finditer_lit_lt (s : Text) (r : Re) (t : Text) (hs : s ≠ [])
    (m : Mtch) (hm : m ∈ finditer (.seq (.lit s) r) t) : m.s < m.e := by
  obtain ⟨rest, hr⟩ := finditerFrom_spec (.seq (.lit s) r) t (t.length + 1) 0 m hm
  have hmem : (m.e, m.gs) ∈ mtch (bigFuel t) (.seq (.lit s) r) t m.s [] := by
    rw [hr]; exact List.mem_cons_self _ _
  exact mtch_seq_lit_lt (bigFuel t) s r t m.s [] (m.e, m.gs) hs hmem

/-- Each of the ten Word exhibit patterns starts with a non-empty literal. -/
theorem exhibitPatterns_lit_headed :
    ∀ p ∈ exhibitPatterns, ∃ s r, p = .seq (.lit s) r ∧ s ≠ [] := by
  intro p hp
  simp only [exhibitPatterns, exPat1, exPat2, exPat3, exPat4, exPat5, exPat6,
    exPat7, exPat8, exPat9, exPat10, List.mem_cons, List.not_mem_nil, or_false] at hp
  rcases hp with rfl|rfl|rfl|rfl|rfl|rfl|rfl|rfl|rfl|rfl
  all_goals exact ⟨_, _, rfl, by decide⟩

/-! ## The extraction invariant: spans of accepted references -/

theorem acceptStep_inv (resolve : Text → List FileInfo) (t : Text) (acc : Acc)
    (m : Mtch) (hm : m.s < m.e) (h : AccInv resolve acc) :
    AccInv resolve (acceptStep resolve t acc m) := by
  obtain ⟨hsp, hpw, hlt, hhd⟩ := h
  unfold acceptStep
  by_cases hpos : posTaken acc.spans m.s
  · rw [if_pos hpos]; exact ⟨hsp, hpw, hlt, hhd⟩
  · rw [if_neg hpos]
    cases hres : resolve (sliceT t m.s m.e) with
    | nil => exact ⟨hsp, hpw, hlt, hhd⟩
    | cons fi rest =>
      have hnot : ∀ a ∈ acc.refs, ¬(a.s ≤ m.s ∧ m.s < a.e) := by
        intro a ha hcon
        apply hpos
        unfold posTaken
        rw [List.any_eq_true]
        refine ⟨(a.s, a.e), ?_, ?_⟩
        · rw [hsp]; exact List.mem_map_of_mem _ ha
        · simp only [decide_eq_true_eq, Bool.and_eq_true, decide_eq_true_eq]
          exact ⟨by simpa using hcon.1, by simpa using hcon.2⟩
      refine ⟨?_, ?_, ?_, ?_⟩
      · simp only [spansOf, List.map_append, hsp]
        rfl
      · rw [List.pairwise_append]
        refine ⟨hpw, by simp, ?_⟩
        intro a ha b hb
        simp only [List.mem_singleton] at hb
        subst hb
        exact hnot a ha
      · intro r hr
        rcases List.mem_append.mp hr with h' | h'
        · exact hlt r h'
        · simp only [List.mem_singleton] at h'
          subst h'
          exact hm
      · intro r hr
        rcases List.mem_append.mp hr with h' | h'
        · exact hhd r h'
        · simp only [List.mem_singleton] at h'
          subst h'
          exact ⟨rest, hres⟩

theorem acceptMatches_inv (resolve : Text → List FileInfo) (t : Text) :
    ∀ (ms : List Mtch) (acc : Acc), (∀ m ∈ ms, m.s < m.e) →
      AccInv resolve acc → AccInv resolve (acceptMatches resolve t acc ms) := by
  intro ms
  induction ms with
  | nil => intro acc _ h; exact h
  | cons m ms ih =>
    intro acc hms h
    rw [acceptMatches, List.foldl_cons]
    exact ih _ (fun x hx => hms x (List.mem_cons_of_mem _ hx))
      (acceptStep_inv resolve t acc m (hms m (List.mem_cons_self _ _)) h)

theorem findRefsWith_inv (pats : List Re) (resolve : Text → List FileInfo)
    (t : Text) (hp : ∀ p ∈ pats, ∀ m ∈ finditer p t, m.s < m.e) :
    AccInv resolve ⟨findRefsWith pats resolve t,
      spansOf (findRefsWith pats resolve t)⟩ := by
  have main : ∀ (ps : List Re) (acc : Acc),
      (∀ p ∈ ps, ∀ m ∈ finditer p t, m.s < m.e) →
      AccInv resolve acc →
      AccInv resolve (ps.foldl (fun acc p => acceptMatches resolve t acc (finditer p t)) acc) := by
    intro ps
    induction ps with
    | nil => intro acc _ h; exact h
    | cons p ps ih =>
      intro acc hps h
      rw [List.foldl_cons]
      exact ih _ (fun q hq => hps q (List.mem_cons_of_mem _ hq))
        (acceptMatches_inv resolve t (finditer p t) acc
          (hps p (List.mem_cons_self _ _)) h)
  have h0 : AccInv resolve ⟨[], []⟩ := by
    refine ⟨rfl, List.Pairwise.nil, ?_, ?_⟩ <;> intro r hr <;> simp at hr
  have := main pats ⟨[], []⟩ hp h0
  obtain ⟨hsp, hpw, hlt, hhd⟩ := this
  refine ⟨rfl, ?_, ?_, ?_⟩ <;> rw [findRefsWith] <;> assumption

/-- The extraction invariant for the exhibit-mode pipeline. -/
theorem findRefsExhibit_inv (t : Text) (folder : List Text) (dir : Text) :
    (findRefsExhibit t folder dir).Pairwise (fun a b => ¬(a.s ≤ b.s ∧ b.s < a.e)) ∧
    (∀ r ∈ findRefsExhibit t folder dir, r.s < r.e) ∧
    (∀ r ∈ findRefsExhibit t folder dir, ∃ rest,
      (findMatchingExhibitFiles folder dir r.txt).map FileInfo.exhibit =
        r.fileInfo :: rest) := by
  unfold findRefsExhibit
  by_cases hg : gateExhibit t
  · rw [if_pos hg]
    have hp : ∀ p ∈ exhibitPatterns, ∀ m ∈ finditer p t, m.s < m.e := by
      intro p hp m hm
      obtain ⟨s, r, rfl, hs⟩ := exhibitPatterns_lit_headed p hp
      exact finditer_lit_lt s r t hs m hm
    obtain ⟨_, h2, h3, h4⟩ := findRefsWith_inv exhibitPatterns
      (fun ref => (findMatchingExhibitFiles folder dir ref).map .exhibit) t hp
    exact ⟨h2, h3, h4⟩
  · rw [if_neg hg]
    refine ⟨List.Pairwise.nil, ?_, ?_⟩ <;> intro r hr <;> simp at hr

/-- The extraction invariant for the Bates-mode pipeline. -/
theorem findRefsBates_inv (t : Text) (m : List (Nat × BatesInfo)) (pfx : Text) :
    (findRefsBates t m pfx).Pairwise (fun a b => ¬(a.s ≤ b.s ∧ b.s < a.e)) ∧
    (∀ r ∈ findRefsBates t m pfx, r.s < r.e) := by
  unfold findRefsBates
  by_cases hg : gateBates pfx t
  · rw [if_pos hg]
    have hpfx : pfx ≠ [] := by
      intro hcon
      rw [gateBates, hcon] at hg
      simp at hg
    have hp : ∀ p ∈ [batesRe pfx], ∀ mm ∈ finditer p t, mm.s < mm.e := by
      intro p hp mm hmm
      simp only [List.mem_singleton] at hp
      subst hp
      exact finditer_lit_lt pfx _ t hpfx mm hmm
    obtain ⟨_, h2, h3, _⟩ := findRefsWith_inv [batesRe pfx]
      (fun ref => (findMatchingBatesFiles m pfx ref).map
        (fun x => .bates x.1 x.2.1 x.2.2)) t hp
    exact ⟨h2, h3⟩
  · rw [if_neg hg]
    refine ⟨List.Pairwise.nil, ?_⟩
    intro r hr
    simp at hr

/-- Accepted references have pairwise distinct start offsets. -/
theorem refs_starts_ne (l : List Ref)
    (hpw : l.Pairwise (fun a b => ¬(a.s ≤ b.s ∧ b.s < a.e)))
    (hlt : ∀ r ∈ l, r.s < r.e) : l.Pairwise (fun a b => a.s ≠ b.s) := by
  refine List.Pairwise.imp_of_mem ?_ hpw
  intro a b ha hb hR heq
  exact hR ⟨le_of_eq heq, heq ▸ hlt a ha⟩

/-! ## The reverse sort -/

theorem insertDescRef_perm (x : Ref) (l : List Ref) :
    (insertDescRef x l).Perm (x :: l) := by
  induction l with
  | nil => exact List.Perm.refl _
  | cons y ys ih =>
    unfold insertDescRef
    by_cases h : x.s ≤ y.s
    · rw [if_pos h]
      exact List.Perm.trans (List.Perm.cons y ih) (List.Perm.swap x y ys)
    · rw [if_neg h]

theorem sortRefsDesc_perm (l : List Ref) : (sortRefsDesc l).Perm l := by
  induction l with
  | nil => exact List.Perm.refl _
  | cons x xs ih =>
    exact List.Perm.trans (insertDescRef_perm x (sortRefsDesc xs))
      (List.Perm.cons x ih)

theorem insertDescRef_sorted (x : Ref) (l : List Ref)
    (h : l.Pairwise (fun a b => b.s ≤ a.s)) :
    (insertDescRef x l).Pairwise (fun a b => b.s ≤ a.s) := by
  induction l with
  | nil => simp [insertDescRef]
  | cons y ys ih =>
    rw [List.pairwise_cons] at h
    obtain ⟨hy, hys⟩ := h
    unfold insertDescRef
    by_cases hxy : x.s ≤ y.s
    · rw [if_pos hxy]
      rw [List.pairwise_cons]
      refine ⟨?_, ih hys⟩
      intro z hz
      rcases List.mem_cons.mp ((insertDescRef_perm x ys).mem_iff.mp hz) with rfl | hz'
      · exact hxy
      · exact hy z hz'
    · rw [if_neg hxy]
      rw [List.pairwise_cons]
      refine ⟨?_, by rw [List.pairwise_cons]; exact ⟨hy, hys⟩⟩
      intro z hz
      rcases List.mem_cons.mp hz with rfl | hz'
      · omega
      · have := hy z hz'
        omega

theorem sortRefsDesc_sorted (l : List Ref) :
    (sortRefsDesc l).Pairwise (fun a b => b.s ≤ a.s) := by
  induction l with
  | nil => simp [sortRefsDesc]
  | cons x xs ih => exact insertDescRef_sorted x (sortRefsDesc xs) ih

/-- With pairwise distinct starts, the descending sort is strictly
descending. -/
theorem sortRefsDesc_strict (l : List Ref)
    (hne : l.Pairwise (fun a b => a.s ≠ b.s)) :
    (sortRefsDesc l).Pairwise (fun a b => b.s < a.s) := by
  have hperm := sortRefsDesc_perm l
  have hne' : (sortRefsDesc l).Pairwise (fun a b => a.s ≠ b.s) :=
    (List.Perm.pairwise_iff (fun h => Ne.symm h) hperm).mpr hne
  exact ((sortRefsDesc_sorted l).and hne').imp (fun h => by omega)

/-- Splicing at `[s, e)` leaves every slice that ends at or before `s`
unchanged. -/
theorem sliceT_splice_left (u : Text) (s e : Nat) (repl : Text) (s' e' : Nat)
    (h1 : e' ≤ s) (h2 : s ≤ u.length) :
    sliceT (splice u s e repl) s' e' = sliceT u s' e' := by
  unfold sliceT splice
  have hlen : (u.take s).length = s := by
    rw [List.length_take]
    omega
  rw [List.append_assoc, List.take_append_eq_append_take, hlen]
  have h0 : e' - s = 0 := by omega
  rw [h0]
  simp only [List.take_zero, List.append_nil, List.take_take]
  rw [min_eq_left h1]

/-- C1: references accepted in one region are committed in strictly
descending start-offset order (in both exhibit and Bates mode), and a
commit that replaces a span `[s, e)` leaves every not-yet-committed span
lying entirely to its left textually unchanged. -/
theorem C1_reverse_span_commit_order :
    (∀ (t : Text) (folder : List Text) (dir : Text),
      (sortRefsDesc (findRefsExhibit t folder dir)).Pairwise
        (fun a b => b.s < a.s)) ∧
    (∀ (t : Text) (m : List (Nat × BatesInfo)) (pfx : Text),
      (sortRefsDesc (findRefsBates t m pfx)).Pairwise
        (fun a b => b.s < a.s)) ∧
    (∀ (u : Text) (s e : Nat) (repl : Text) (s' e' : Nat),
      e' ≤ s → s ≤ u.length →
      sliceT (splice u s e repl) s' e' = sliceT u s' e') := by
  refine ⟨?_, ?_, sliceT_splice_left⟩
  · intro t folder dir
    obtain ⟨h1, h2, _⟩ := findRefsExhibit_inv t folder dir
    exact sortRefsDesc_strict _ (refs_starts_ne _ h1 h2)
  · intro t m pfx
    obtain ⟨h1, h2⟩ := findRefsBates_inv t m pfx
    exact sortRefsDesc_strict _ (refs_starts_ne _ h1 h2)

/-- Witness for C1 at a concrete text: the splice part applied to a
twenty-character buffer with a commit at `[10, 15)` and an earlier span
`[2, 5)`. -/
theorem C1_reverse_span_commit_order_witness :
    5 ≤ 10 ∧ 10 ≤ (chars "aaaabbbbccccddddeeee").length ∧
    sliceT (splice (chars "aaaabbbbccccddddeeee") 10 15 (chars "LINKTEXT")) 2 5 =
      sliceT (chars "aaaabbbbccccddddeeee") 2 5 :=
  ⟨by decide, by decide,
    C1_reverse_span_commit_order.2.2 (chars "aaaabbbbccccddddeeee") 10 15
      (chars "LINKTEXT") 2 5 (by decide) (by decide)⟩

/-! ## De-duplication: what the start-position check does and does not give -/

/-- C5 counterexample: in the region `"Ex. Ex. 5"` with files `Ex. 5.pdf`
and `Ex. E.pdf`, the first pattern accepts the span `[4, 9)` (`"Ex. 5"`)
and the second pattern then accepts `[0, 5)` (`"Ex. E"`), whose start lies
outside the earlier span although the spans overlap at position 4 — so the
accepted spans are not pairwise disjoint and an overlapping later match is
not discarded. -/
theorem C5_overlap_counterexample :
    (findRefsExhibit (chars "Ex. Ex. 5") [chars "Ex. 5.pdf", chars "Ex. E.pdf"]
      (chars "D")).map (fun r => (r.s, r.e)) = [(4, 9), (0, 5)] ∧
    spansDisjoint [(4, 9), (0, 5)] = false :=
  ⟨by decide, by decide⟩

/-- C5 amended: a later match is discarded exactly when its start offset
lies inside an already-accepted span; hence all accepted spans are
non-empty and no accepted reference starts inside an earlier-accepted span,
but accepted spans may still overlap when a later match starts before an
earlier-accepted span and extends into it. -/
theorem C5_amended_start_only_dedup (t : Text) (folder : List Text) (dir : Text) :
    (∀ r ∈ findRefsExhibit t folder dir, r.s < r.e) ∧
    (findRefsExhibit t folder dir).Pairwise
      (fun a b => ¬(a.s ≤ b.s ∧ b.s < a.e)) := by
  obtain ⟨h1, h2, _⟩ := findRefsExhibit_inv t folder dir
  exact ⟨h2, h1⟩

/-- Witness for the amended C5 at the counterexample region. -/
theorem C5_amended_start_only_dedup_witness :
    (⟨chars "Ex. 5", 4, 9, FileInfo.exhibit (chars "D\\Ex. 5.pdf")⟩ : Ref) ∈
      findRefsExhibit (chars "Ex. Ex. 5")
        [chars "Ex. 5.pdf", chars "Ex. E.pdf"] (chars "D") ∧
    (4 : Nat) < 9 :=
  ⟨by decide,
    (C5_amended_start_only_dedup (chars "Ex. Ex. 5")
      [chars "Ex. 5.pdf", chars "Ex. E.pdf"] (chars "D")).1
      ⟨chars "Ex. 5", 4, 9, FileInfo.exhibit (chars "D\\Ex. 5.pdf")⟩ (by decide)⟩

/-- C7 counterexample: the region `"See Ex 5"` contains the listed surface
form `"Ex 5"` — pattern 7 finds it at span `[4, 8)` — but the region fails
the case-sensitive pre-filter (`'Ex.' in text or 'Exhibit' in text`), so
extraction records nothing. -/
theorem C7_case_sensitive_gate_counterexample :
    findRefsExhibit (chars "See Ex 5") [chars "Ex. 5.pdf"] (chars "D") = [] ∧
    (finditer exPat7 (chars "See Ex 5")).map (fun m => (m.s, m.e)) = [(4, 8)] ∧
    gateExhibit (chars "See Ex 5") = false :=
  ⟨by decide, by decide, by decide⟩

/-- C7 amended: the ten surface patterns are applied case-insensitively,
but only to regions whose raw text contains the case-sensitive substring
`"Ex."` or `"Exhibit"`; a region failing that pre-filter yields nothing,
while in a passing region occurrences of the listed forms (including
lower-case ones such as `"ex 7"`) are found and recorded with their
character spans. -/
theorem C7_amended_gated_extraction :
    (∀ (t : Text) (folder : List Text) (dir : Text),
      gateExhibit t = false → findRefsExhibit t folder dir = []) ∧
    (findRefsExhibit (chars "See Ex. 5 and ex 7")
      [chars "Ex. 5.pdf", chars "Ex. 7.pdf"] (chars "D")).map
        (fun r => (r.txt, r.s, r.e)) =
      [(chars "Ex. 5", 4, 9), (chars "ex 7", 14, 18)] := by
  constructor
  · intro t folder dir hg
    simp [findRefsExhibit, hg]
  · decide

/-- Witness for the amended C7: an all-lower-case region is skipped by the
pre-filter. -/
theorem C7_amended_gated_extraction_witness :
    gateExhibit (chars "see ex. 5 here") = false ∧
    findRefsExhibit (chars "see ex. 5 here") [chars "Ex. 5.pdf"] (chars "D") = [] :=
  ⟨by decide,
    C7_amended_gated_extraction.1 (chars "see ex. 5 here") [chars "Ex. 5.pdf"]
      (chars "D") (by decide)⟩

/-! ## Candidate-prefix resolution -/

/-- The prefix loop accumulates per-candidate matches and breaks at the
first candidate with any match: it computes the first non-empty per-prefix
match list. -/
theorem tryPfxs_eq_firstNonempty (folder : List Text) (dir : Text) :
    ∀ ps : List Text,
      tryPfxs folder dir ps = firstNonempty (ps.map (matchesForPfx folder dir)) := by
  intro ps
  induction ps with
  | nil => rfl
  | cons p ps ih =>
    rw [tryPfxs, List.map_cons, firstNonempty]
    by_cases h : (matchesForPfx folder dir p).isEmpty
    · rw [if_pos h, if_pos h, ih]
    · rw [if_neg h, if_neg h]

/-- The filename-against-prefix test, characterized. -/
theorem fileMatches_iff (pfx fn : Text) :
    fileMatches pfx fn = true ↔
      (pfx <+: fn ∧ (fn.length ≤ pfx.length ∨
        ∃ c, fn[pfx.length]? = some c ∧ c ∈ seps)) := by
  unfold fileMatches
  rw [Bool.and_eq_true, Bool.or_eq_true]
  constructor
  · rintro ⟨h1, h2⟩
    refine ⟨List.isPrefixOf_iff_prefix.mp h1, ?_⟩
    rcases h2 with h2 | h2
    · exact Or.inl (of_decide_eq_true h2)
    · right
      cases hc : fn[pfx.length]? with
      | none => rw [hc] at h2; simp at h2
      | some c =>
        rw [hc] at h2
        exact ⟨c, rfl, List.elem_iff.mp h2⟩
  · rintro ⟨h1, h2⟩
    refine ⟨List.isPrefixOf_iff_prefix.mpr h1, ?_⟩
    rcases h2 with h2 | ⟨c, hc, hcs⟩
    · exact Or.inl (decide_eq_true h2)
    · right
      rw [hc]
      exact List.elem_iff.mpr hcs

/-- C3: for an extracted identifier the candidate filename prefixes are
tried in exactly the order `"Ex. id"`, `"Ex.id"`, `"Ex id"`, `"Ex_id"`,
`"Exhibit id"`, `"Exhibit_id"`; a filename matches a candidate iff it
starts with it and the prefix either covers the whole filename or is
followed by `_`, `-`, `.` or a space; the scan stops at the first candidate
with at least one match (never merging candidates); and with both
`Ex. 5.pdf` and `Ex_5.pdf` present, resolving `"Ex. 5"` returns only the
`"Ex. 5"` match. -/
theorem C3_candidate_prefix_resolution :
    (∀ id : Text, possiblePfxs id =
      [ chars "Ex. " ++ id, chars "Ex." ++ id, chars "Ex " ++ id,
        chars "Ex_" ++ id, chars "Exhibit " ++ id, chars "Exhibit_" ++ id ]) ∧
    (∀ pfx fn : Text, fileMatches pfx fn = true ↔
      (pfx <+: fn ∧ (fn.length ≤ pfx.length ∨
        ∃ c, fn[pfx.length]? = some c ∧ c ∈ seps))) ∧
    (∀ (folder : List Text) (dir : Text) (ps : List Text),
      tryPfxs folder dir ps = firstNonempty (ps.map (matchesForPfx folder dir))) ∧
    findMatchingExhibitFiles [chars "Ex. 5.pdf", chars "Ex_5.pdf"] (chars "D")
      (chars "Ex. 5") = [chars "D\\Ex. 5.pdf"] :=
  ⟨fun _ => rfl, fileMatches_iff,
    fun folder dir => tryPfxs_eq_firstNonempty folder dir, by decide⟩

/-- The prefix loop returns the matching filenames of the winning candidate
as an in-order sublist of the directory listing. -/
theorem tryPfxs_sublist (folder : List Text) (dir : Text) :
    ∀ ps : List Text, ∃ names : List Text,
      names.Sublist folder ∧ tryPfxs folder dir ps = names.map (ospJoin dir) := by
  intro ps
  induction ps with
  | nil => exact ⟨[], List.nil_sublist folder, rfl⟩
  | cons p ps ih =>
    rw [tryPfxs]
    by_cases h : (matchesForPfx folder dir p).isEmpty
    · rw [if_pos h]
      exact ih
    · rw [if_neg h]
      exact ⟨folder.filter (fun fn => fileMatches p fn),
        List.filter_sublist folder, rfl⟩

/-- Resolution always returns the joined paths of an in-order sublist of
the directory listing. -/
theorem findMatchingExhibitFiles_sublist (folder : List Text) (dir rt : Text) :
    ∃ names : List Text, names.Sublist folder ∧
      findMatchingExhibitFiles folder dir rt = names.map (ospJoin dir) := by
  rw [findMatchingExhibitFiles]
  induction exhibitPatterns with
  | nil => exact ⟨[], List.nil_sublist folder, rfl⟩
  | cons p ps ih =>
    rw [findExhibitFilesAux]
    cases reSearch p rt with
    | none => exact ih
    | some m =>
      simp only
      by_cases h : (tryPfxs folder dir (possiblePfxs (groupStr rt m 1))).isEmpty
      · rw [if_pos h]
        exact ih
      · rw [if_neg h]
        exact tryPfxs_sublist folder dir (possiblePfxs (groupStr rt m 1))

/-- C10: when several filenames match the winning candidate prefix, all are
returned, in directory-listing order (an in-order sublist of the listing);
and the annotation step records the first element of that list as the
reference's link target. -/
theorem C10_listing_order_and_first_link :
    (∀ (folder : List Text) (dir rt : Text), ∃ names : List Text,
      names.Sublist folder ∧
      findMatchingExhibitFiles folder dir rt = names.map (ospJoin dir)) ∧
    (∀ (t : Text) (folder : List Text) (dir : Text) (r : Ref),
      r ∈ findRefsExhibit t folder dir → ∃ rest,
      (findMatchingExhibitFiles folder dir r.txt).map FileInfo.exhibit =
        r.fileInfo :: rest) ∧
    findMatchingExhibitFiles [chars "Ex. 5 app.pdf", chars "Ex. 5 brief.pdf"]
      (chars "D") (chars "Ex. 5") =
      [chars "D\\Ex. 5 app.pdf", chars "D\\Ex. 5 brief.pdf"] ∧
    (findRefsExhibit (chars "See Ex. 5")
      [chars "Ex. 5 app.pdf", chars "Ex. 5 brief.pdf"] (chars "D")).map
        (fun r => r.fileInfo) =
      [FileInfo.exhibit (chars "D\\Ex. 5 app.pdf")] := by
  refine ⟨findMatchingExhibitFiles_sublist, ?_, by decide, by decide⟩
  intro t folder dir r hr
  exact (findRefsExhibit_inv t folder dir).2.2 r hr

/-- Witness for C10's membership hypothesis at the two-file example. -/
theorem C10_listing_order_and_first_link_witness :
    (⟨chars "Ex. 5", 4, 9, FileInfo.exhibit (chars "D\\Ex. 5 app.pdf")⟩ : Ref) ∈
      findRefsExhibit (chars "See Ex. 5")
        [chars "Ex. 5 app.pdf", chars "Ex. 5 brief.pdf"] (chars "D") ∧
    ∃ rest,
      (findMatchingExhibitFiles [chars "Ex. 5 app.pdf", chars "Ex. 5 brief.pdf"]
        (chars "D") (chars "Ex. 5")).map FileInfo.exhibit =
        FileInfo.exhibit (chars "D\\Ex. 5 app.pdf") :: rest :=
  ⟨by decide,
    C10_listing_order_and_first_link.2.1 (chars "See Ex. 5")
      [chars "Ex. 5 app.pdf", chars "Ex. 5 brief.pdf"] (chars "D")
      ⟨chars "Ex. 5", 4, 9, FileInfo.exhibit (chars "D\\Ex. 5 app.pdf")⟩
      (by decide)⟩

/-! ## Bates lookup -/

theorem insertDescNat_perm (x : Nat) (l : List Nat) :
    (insertDescNat x l).Perm (x :: l) := by
  induction l with
  | nil => exact List.Perm.refl _
  | cons y ys ih =>
    unfold insertDescNat
    by_cases h : x ≤ y
    · rw [if_pos h]
      exact List.Perm.trans (List.Perm.cons y ih) (List.Perm.swap x y ys)
    · rw [if_neg h]

theorem sortDescNat_perm (l : List Nat) : (sortDescNat l).Perm l := by
  induction l with
  | nil => exact List.Perm.refl _
  | cons x xs ih =>
    exact List.Perm.trans (insertDescNat_perm x (sortDescNat xs))
      (List.Perm.cons x ih)

theorem insertDescNat_sorted (x : Nat) (l : List Nat)
    (h : l.Pairwise (fun a b => b ≤ a)) :
    (insertDescNat x l).Pairwise (fun a b => b ≤ a) := by
  induction l with
  | nil => simp [insertDescNat]
  | cons y ys ih =>
    rw [List.pairwise_cons] at h
    obtain ⟨hy, hys⟩ := h
    unfold insertDescNat
    by_cases hxy : x ≤ y
    · rw [if_pos hxy]
      rw [List.pairwise_cons]
      refine ⟨?_, ih hys⟩
      intro z hz
      rcases List.mem_cons.mp ((insertDescNat_perm x ys).mem_iff.mp hz) with rfl | hz'
      · exact hxy
      · exact hy z hz'
    · rw [if_neg hxy]
      rw [List.pairwise_cons]
      refine ⟨?_, by rw [List.pairwise_cons]; exact ⟨hy, hys⟩⟩
      intro z hz
      rcases List.mem_cons.mp hz with rfl | hz'
      · omega
      · have := hy z hz'
        omega

theorem sortDescNat_sorted (l : List Nat) :
    (sortDescNat l).Pairwise (fun a b => b ≤ a) := by
  induction l with
  | nil => simp [sortDescNat]
  | cons x xs ih => exact insertDescNat_sorted x (sortDescNat xs) ih

/-- The descending scan returns nothing iff every start page exceeds the
target. -/
theorem firstLe_none_iff (n : Nat) : ∀ l : List Nat,
    (firstLe n l = none ↔ ∀ s ∈ l, n < s) := by
  intro l
  induction l with
  | nil => simp [firstLe]
  | cons x xs ih =>
    unfold firstLe
    by_cases h : x ≤ n
    · rw [if_pos h]
      simp only [reduceCtorEq, false_iff, not_forall]
      exact ⟨x, List.mem_cons_self _ _, by omega⟩
    · rw [if_neg h]
      rw [ih]
      constructor
      · intro hall s hs
        rcases List.mem_cons.mp hs with rfl | hs'
        · omega
        · exact hall s hs'
      · intro hall s hs
        exact hall s (List.mem_cons_of_mem _ hs)

/-- On a descending list the scan's hit is a maximal start page `≤ n`. -/
theorem firstLe_some_spec (n : Nat) : ∀ l : List Nat,
    l.Pairwise (fun a b => b ≤ a) → ∀ s, firstLe n l = some s →
      s ∈ l ∧ s ≤ n ∧ ∀ s' ∈ l, s' ≤ n → s' ≤ s := by
  intro l
  induction l with
  | nil => intro _ s h; simp [firstLe] at h
  | cons x xs ih =>
    intro hpw s h
    rw [List.pairwise_cons] at hpw
    obtain ⟨hx, hxs⟩ := hpw
    unfold firstLe at h
    by_cases hxn : x ≤ n
    · rw [if_pos hxn] at h
      simp only [Option.some.injEq] at h
      subst h
      refine ⟨List.mem_cons_self _ _, hxn, ?_⟩
      intro s' hs' _
      rcases List.mem_cons.mp hs' with rfl | hs''
      · exact le_refl _
      · exact hx s' hs''
    · rw [if_neg hxn] at h
      obtain ⟨h1, h2, h3⟩ := ih hxs s h
      refine ⟨List.mem_cons_of_mem _ h1, h2, ?_⟩
      intro s' hs' hs'n
      rcases List.mem_cons.mp hs' with rfl | hs''
      · omega
      · exact h3 s' hs'' hs'n

/-- Every key of the map is retrievable. -/
theorem lookupD_mem : ∀ (m : List (Nat × BatesInfo)) (k : Nat),
    k ∈ keysOf m → ∃ info, lookupD m k = some info := by
  intro m
  induction m with
  | nil => intro k hk; simp [keysOf] at hk
  | cons e rest ih =>
    intro k hk
    by_cases h : e.1 = k
    · exact ⟨e.2, by simp [lookupD, List.find?, h]⟩
    · have hk' : k ∈ keysOf rest := by
        simp only [keysOf, List.map_cons, List.mem_cons] at hk
        rcases hk with rfl | hk
        · exact absurd rfl h
        · exact hk
      obtain ⟨info, hinfo⟩ := ih k hk'
      refine ⟨info, ?_⟩
      simp only [lookupD, List.find?] at hinfo ⊢
      rw [show (decide (e.1 = k)) = false from by simp [h]]
      exact hinfo

/-- C2: Bates resolution returns the indexed file with the largest start
page `s ≤ n` at page `n - s + 1`, and nothing when every start page
exceeds `n`; on the index built from `SMITH_0001.pdf` and `SMITH_0051.pdf`
(start pages 1 and 51), number 75 resolves to the second file at page 25,
number 1 to the first file at page 1, and number 0 to nothing. -/
theorem C2_bates_resolution :
    (∀ (m : List (Nat × BatesInfo)) (n : Nat),
      (∀ s ∈ keysOf m, n < s) → findBatesPdfAndPage m n = none) ∧
    (∀ (m : List (Nat × BatesInfo)) (n s : Nat),
      s ∈ keysOf m → s ≤ n → ∃ smax info,
        smax ∈ keysOf m ∧ smax ≤ n ∧
        (∀ s' ∈ keysOf m, s' ≤ n → s' ≤ smax) ∧
        lookupD m smax = some info ∧
        findBatesPdfAndPage m n = some (info.path, n - smax + 1)) ∧
    keysOf (buildBatesMap [chars "SMITH_0001.pdf", chars "SMITH_0051.pdf"]
      (chars "D") (chars "SMITH_")) = [1, 51] ∧
    findBatesPdfAndPage (buildBatesMap [chars "SMITH_0001.pdf",
      chars "SMITH_0051.pdf"] (chars "D") (chars "SMITH_")) 75 =
      some (chars "D\\SMITH_0051.pdf", 25) ∧
    findBatesPdfAndPage (buildBatesMap [chars "SMITH_0001.pdf",
      chars "SMITH_0051.pdf"] (chars "D") (chars "SMITH_")) 1 =
      some (chars "D\\SMITH_0001.pdf", 1) ∧
    findBatesPdfAndPage (buildBatesMap [chars "SMITH_0001.pdf",
      chars "SMITH_0051.pdf"] (chars "D") (chars "SMITH_")) 0 = none := by
  refine ⟨?_, ?_, by decide, by decide, by decide, by decide⟩
  · intro m n hall
    unfold findBatesPdfAndPage
    by_cases hm : m.isEmpty
    · rw [if_pos hm]
    · rw [if_neg hm]
      have : firstLe n (sortDescNat (m.map (fun x => x.1))) = none := by
        rw [firstLe_none_iff]
        intro s hs
        exact hall s ((sortDescNat_perm _).mem_iff.mp hs)
      rw [this]
  · intro m n s hs hsn
    have hm : m.isEmpty = false := by
      cases m with
      | nil => simp [keysOf] at hs
      | cons e rest => rfl
    have hne : firstLe n (sortDescNat (m.map (fun x => x.1))) ≠ none := by
      intro hnone
      rw [firstLe_none_iff] at hnone
      have := hnone s ((sortDescNat_perm _).mem_iff.mpr hs)
      omega
    cases hfl : firstLe n (sortDescNat (m.map (fun x => x.1))) with
    | none => exact absurd hfl hne
    | some smax =>
      obtain ⟨h1, h2, h3⟩ :=
        firstLe_some_spec n _ (sortDescNat_sorted _) smax hfl
      have hmem : smax ∈ keysOf m := (sortDescNat_perm _).mem_iff.mp h1
      obtain ⟨info, hinfo⟩ := lookupD_mem m smax hmem
      refine ⟨smax, info, hmem, h2, ?_, hinfo, ?_⟩
      · intro s' hs' hs'n
        exact h3 s' ((sortDescNat_perm _).mem_iff.mpr hs') hs'n
      · unfold findBatesPdfAndPage
        rw [hm]
        simp only [Bool.false_eq_true, if_false]
        rw [hfl]
        simp [hinfo]

/-- Witness for C2 at the two-file index and Bates number 75. -/
theorem C2_bates_resolution_witness :
    51 ∈ keysOf (buildBatesMap [chars "SMITH_0001.pdf", chars "SMITH_0051.pdf"]
      (chars "D") (chars "SMITH_")) ∧ 51 ≤ 75 ∧
    (∃ smax info,
      smax ∈ keysOf (buildBatesMap [chars "SMITH_0001.pdf",
        chars "SMITH_0051.pdf"] (chars "D") (chars "SMITH_")) ∧ smax ≤ 75 ∧
      (∀ s' ∈ keysOf (buildBatesMap [chars "SMITH_0001.pdf",
        chars "SMITH_0051.pdf"] (chars "D") (chars "SMITH_")), s' ≤ 75 → s' ≤ smax) ∧
      lookupD (buildBatesMap [chars "SMITH_0001.pdf", chars "SMITH_0051.pdf"]
        (chars "D") (chars "SMITH_")) smax = some info ∧
      findBatesPdfAndPage (buildBatesMap [chars "SMITH_0001.pdf",
        chars "SMITH_0051.pdf"] (chars "D") (chars "SMITH_")) 75 =
        some (info.path, 75 - smax + 1)) :=
  ⟨by decide, by decide,
    C2_bates_resolution.2.1 _ 75 51 (by decide) (by decide)⟩

/-! ## Re-localization -/

/-- A hit of the case-insensitive window search really is a
case-insensitive occurrence of the needle. -/
theorem searchCIFrom_sound (needle hay : Text) : ∀ (fu i k : Nat),
    searchCIFrom needle hay i fu = some k →
    lcs (sliceT hay k (k + needle.length)) = lcs needle := by
  intro fu
  induction fu with
  | zero => intro i k h; simp [searchCIFrom] at h
  | succ fu ih =>
    intro i k h
    unfold searchCIFrom at h
    by_cases hq : lcs (sliceT hay i (i + needle.length)) = lcs needle
    · rw [if_pos hq] at h
      simp only [Option.some.injEq] at h
      subst h
      exact hq
    · rw [if_neg hq] at h
      by_cases hi : i < hay.length
      · rw [if_pos hi] at h
        exact ih (i+1) k h
      · rw [if_neg hi] at h
        simp at h

/-- C6: when the live text at the recorded span no longer equals the
expected citation text, the applicator searches (once) the window from 5
characters before the span to 5 characters past its end for a
case-insensitive exact occurrence; a hit shifts the span there and the
commit proceeds at the shifted span; a miss skips the citation and leaves
the text untouched; and when the live text still matches, the commit uses
the original span. -/
theorem C6_window_relocalization :
    ∀ (t : Text) (r : Ref),
    (sliceT t r.s r.e = r.txt →
      applyOne t r = (splice t r.s r.e r.txt, true)) ∧
    (sliceT t r.s r.e ≠ r.txt →
      (searchCI r.txt (sliceT t (r.s - 5) (min t.length (r.e + 5))) = none →
        applyOne t r = (t, false)) ∧
      (∀ k, searchCI r.txt (sliceT t (r.s - 5) (min t.length (r.e + 5))) = some k →
        applyOne t r =
          (splice t (r.s - 5 + k) (r.s - 5 + k + r.txt.length) r.txt, true) ∧
        lcs (sliceT (sliceT t (r.s - 5) (min t.length (r.e + 5))) k
          (k + r.txt.length)) = lcs r.txt)) := by
  intro t r
  constructor
  · intro h
    unfold applyOne
    rw [if_pos h]
  · intro h
    constructor
    · intro hse
      unfold applyOne
      rw [if_neg h]
      simp only [hse]
    · intro k hsk
      constructor
      · unfold applyOne
        rw [if_neg h]
        simp only [hsk]
      · exact searchCIFrom_sound r.txt _ _ 0 k hsk

/-- Witness for C6: a citation recorded at `[6, 11)` whose live occurrence
has drifted left to `[3, 8)` — inside the window — is re-localized and
committed there. -/
theorem C6_window_relocalization_witness :
    sliceT (chars "xx Ex. 5 yy") 6 11 ≠ chars "Ex. 5" ∧
    searchCI (chars "Ex. 5")
      (sliceT (chars "xx Ex. 5 yy") 1 (min (chars "xx Ex. 5 yy").length 16)) =
      some 2 ∧
    applyOne (chars "xx Ex. 5 yy") ⟨chars "Ex. 5", 6, 11, FileInfo.exhibit (chars "p")⟩ =
      (splice (chars "xx Ex. 5 yy") 3 8 (chars "Ex. 5"), true) :=
  ⟨by decide, by decide,
    (((C6_window_relocalization (chars "xx Ex. 5 yy")
      ⟨chars "Ex. 5", 6, 11, FileInfo.exhibit (chars "p")⟩).2 (by decide)).2 2
      (by decide)).1⟩

/-! ## Scan order and resilience -/

theorem foldl_add_count (f : Region → Nat) : ∀ (l : List Region) (c : Nat),
    l.foldl (fun acc r => acc + f r) c = c + (l.map f).sum := by
  intro l
  induction l with
  | nil => intro c; simp
  | cons x xs ih =>
    intro c
    rw [List.foldl_cons, ih, List.map_cons, List.sum_cons]
    omega

/-- C8: the scan totals the per-region counts over main-text paragraphs,
then footnotes, then endnotes, each in index order; a region whose read or
processing fails contributes zero and never interrupts the walk. -/
theorem C8_scan_order_and_resilience :
    (∀ (paras footnotes endnotes : List Region) (folder : List Text) (dir : Text),
      processDocument paras footnotes endnotes folder dir =
        ((paras ++ footnotes ++ endnotes).map (processRegion folder dir)).sum) ∧
    (∀ (folder : List Text) (dir : Text), processRegion folder dir none = 0) ∧
    (∀ (pre post footnotes endnotes : List Region) (folder : List Text) (dir : Text),
      processDocument (pre ++ none :: post) footnotes endnotes folder dir =
        processDocument (pre ++ post) footnotes endnotes folder dir) := by
  have hmain : ∀ (paras footnotes endnotes : List Region) (folder : List Text)
      (dir : Text), processDocument paras footnotes endnotes folder dir =
        ((paras ++ footnotes ++ endnotes).map (processRegion folder dir)).sum := by
    intro paras footnotes endnotes folder dir
    unfold processDocument
    rw [foldl_add_count, foldl_add_count, foldl_add_count]
    simp [List.map_append, List.sum_append]
    omega
  refine ⟨hmain, fun _ _ => rfl, ?_⟩
  intro pre post footnotes endnotes folder dir
  rw [hmain, hmain]
  simp only [List.map_append, List.sum_append, List.map_cons, List.sum_cons]
  have : processRegion folder dir none = 0 := rfl
  rw [this]
  omega

/-! ## Excel cell normalization -/

/-- C9: in Excel mode an integral float rendering such as `"10.0"` is
coerced to its integer string before matching; bare numeric or
single-letter cells are accepted as implicit exhibit identifiers; and
cleaned values on the header denylist, or longer than the 125-character
cap, resolve to no files whatever the folder contains. -/
theorem C9_excel_cell_normalization :
    (∀ (folder : List Text) (dir v : Text), lcs (cleanRef v) ∈ skipWords →
      excelFindMatchingExhibitFiles folder dir v = []) ∧
    (∀ (folder : List Text) (dir v : Text), 125 < (cleanRef v).length →
      excelFindMatchingExhibitFiles folder dir v = []) ∧
    cleanRef (chars "10.0") = chars "10" ∧
    excelFindMatchingExhibitFiles [chars "Ex. 10.pdf"] (chars "D")
      (chars "10.0") = [chars "D\\Ex. 10.pdf"] ∧
    excelFindMatchingExhibitFiles [chars "Ex. B.pdf"] (chars "D")
      (chars "b") = [chars "D\\Ex. B.pdf"] ∧
    (∀ (folder : List Text) (dir : Text),
      excelFindMatchingExhibitFiles folder dir (chars "Exhibit") = []) := by
  have h1 : ∀ (folder : List Text) (dir v : Text), lcs (cleanRef v) ∈ skipWords →
      excelFindMatchingExhibitFiles folder dir v = [] := by
    intro folder dir v h
    have hc : skipWords.contains (lcs (cleanRef v)) = true := List.elem_iff.mpr h
    simp only [excelFindMatchingExhibitFiles]
    rw [if_pos hc]
  refine ⟨h1, ?_, by decide, by decide, by decide, ?_⟩
  · intro folder dir v h
    by_cases hc : skipWords.contains (lcs (cleanRef v)) = true
    · simp only [excelFindMatchingExhibitFiles]
      rw [if_pos hc]
    · simp only [excelFindMatchingExhibitFiles]
      rw [if_neg hc, if_pos h]
  · intro folder dir
    exact h1 folder dir (chars "Exhibit") (by decide)

/-- Witness for C9: the header-like cell `"number"` is rejected
regardless of the folder contents. -/
theorem C9_excel_cell_normalization_witness :
    lcs (cleanRef (chars "number")) ∈ skipWords ∧
    excelFindMatchingExhibitFiles [chars "Ex. 1.pdf"] (chars "D")
      (chars "number") = [] :=
  ⟨by decide,
    C9_excel_cell_normalization.1 [chars "Ex. 1.pdf"] (chars "D")
      (chars "number") (by decide)⟩

/-! ## Page automation: pattern installation -/

/-- C4 counterexample: after a successful synthesis from
`("Ex. 5 at p. 25", 25)`, a second call with `("nothing here", 7)` fails
synthesis (no exhibit pattern matches), yet the previously installed
pattern stays installed while the exemplar fields already hold the new
pair — the installed pattern was not built from the current inputs and a
synthesis failure did not clear it. -/
theorem C4_stale_pattern_counterexample :
    ((setPageAutomation (setPageAutomation ⟨false, [], none, none⟩ true
        (chars "Ex. 5 at p. 25") (some 25)) true
        (chars "nothing here") (some 7)).pagePattern.isSome = true) ∧
    ((buildPagePattern (chars "nothing here") 7).isNone = true) ∧
    ((setPageAutomation (setPageAutomation ⟨false, [], none, none⟩ true
        (chars "Ex. 5 at p. 25") (some 25)) true
        (chars "nothing here") (some 7)).exemplaryCitation =
      chars "nothing here") ∧
    ((setPageAutomation (setPageAutomation ⟨false, [], none, none⟩ true
        (chars "Ex. 5 at p. 25") (some 25)) true
        (chars "nothing here") (some 7)).exemplaryPage = some 7) :=
  ⟨by decide, by decide, by decide, by decide⟩

/-- C4 amended: a call with automation enabled and both exemplar inputs
truthy installs the freshly built pattern when synthesis (including
self-validation) succeeds, and otherwise leaves the previously installed
pattern — possibly built from superseded inputs — in place; a call with
automation disabled or a missing input clears the pattern; and every
pattern synthesis ever installed passed self-validation against its own
exemplar. -/
theorem C4_amended_install_semantics :
    (∀ (s : PAState) (citation : Text) (page : Option Nat) (p : Nat),
      page = some p → p ≠ 0 → pyStrip citation ≠ [] →
      ((∃ pp, buildPagePattern (pyStrip citation) p = some pp ∧
        (setPageAutomation s true citation page).pagePattern = some pp) ∨
       (buildPagePattern (pyStrip citation) p = none ∧
        (setPageAutomation s true citation page).pagePattern = s.pagePattern))) ∧
    (∀ (s : PAState) (enabled : Bool) (citation : Text) (page : Option Nat),
      (enabled = false ∨ pyStrip citation = [] ∨ page = none ∨ page = some 0) →
      (setPageAutomation s enabled citation page).pagePattern = none) ∧
    (∀ (cit : Text) (p : Nat) (pp : PagePattern),
      buildPagePattern cit p = some pp →
      ∃ exhibitId ptype, findExhibitId exhibitPatterns cit = some exhibitId ∧
        pp.regex = fullPattern ptype ∧ pp.exhibitGroupIndex = 1 ∧
        pp.pageGroupIndex = 2 ∧
        selfValidates pp.regex cit exhibitId (natDigits p) = true) := by
  refine ⟨?_, ?_, ?_⟩
  · intro s citation page p hpage hp hcit
    subst hpage
    cases hc : pyStrip citation with
    | nil => exact absurd hc hcit
    | cons c cs =>
      cases p with
      | zero => exact absurd rfl hp
      | succ q =>
        cases hb : buildPagePattern (c :: cs) (q + 1) with
        | some pp =>
          left
          exact ⟨pp, rfl, by simp only [setPageAutomation, hc, hb]⟩
        | none =>
          right
          exact ⟨rfl, by simp only [setPageAutomation, hc, hb]⟩
  · intro s enabled citation page h
    rcases h with h | h | h | h
    · subst h
      cases hc : pyStrip citation <;> simp [setPageAutomation, hc]
    · cases enabled <;> simp [setPageAutomation, h]
    · subst h
      cases enabled <;> cases hc : pyStrip citation <;>
        simp [setPageAutomation, hc]
    · subst h
      cases enabled <;> cases hc : pyStrip citation <;>
        simp [setPageAutomation, hc]
  · intro cit p pp hb
    unfold buildPagePattern at hb
    cases he : findExhibitId exhibitPatterns cit with
    | none => rw [he] at hb; simp at hb
    | some exhibitId =>
      rw [he] at hb
      simp only at hb
      cases ht : findPTypeAux 0 cit (pagePatterns (natDigits p)) with
      | none => rw [ht] at hb; simp at hb
      | some ptype =>
        rw [ht] at hb
        simp only at hb
        by_cases hv : selfValidates (fullPattern ptype) cit exhibitId (natDigits p)
        · rw [if_pos hv] at hb
          simp only [Option.some.injEq] at hb
          subst hb
          exact ⟨exhibitId, ptype, rfl, rfl, rfl, rfl, hv⟩
        · rw [if_neg hv] at hb
          simp at hb

/-- Witness for the amended C4 at the successful exemplar
`("Ex. 5 at p. 25", 25)` starting from a fresh state. -/
theorem C4_amended_install_semantics_witness :
    (some 25 = some (25 : Nat)) ∧ (25 : Nat) ≠ 0 ∧
    pyStrip (chars "Ex. 5 at p. 25") ≠ [] ∧
    ((∃ pp, buildPagePattern (pyStrip (chars "Ex. 5 at p. 25")) 25 = some pp ∧
      (setPageAutomation ⟨false, [], none, none⟩ true
        (chars "Ex. 5 at p. 25") (some 25)).pagePattern = some pp) ∨
     (buildPagePattern (pyStrip (chars "Ex. 5 at p. 25")) 25 = none ∧
      (setPageAutomation ⟨false, [], none, none⟩ true
        (chars "Ex. 5 at p. 25") (some 25)).pagePattern =
        (⟨false, [], none, none⟩ : PAState).pagePattern)) :=
  ⟨rfl, by decide, by decide,
    C4_amended_install_semantics.1 ⟨false, [], none, none⟩
      (chars "Ex. 5 at p. 25") (some 25) 25 rfl (by decide) (by decide)⟩

end ExhibitLinker
